import Mathlib

/-!
Verification of the cf2 metamodel tree engine (src/cf2.py).

The engine is embedded shallowly:
* `PyVal` models the Python runtime values the engine manipulates
  (ints, bools, strings, dicts with insertion-ordered entries, lists);
* `MetaTreeNode` models the schema tree (`MetaTreeScalar` / `MetaTreeFixedDict`),
  with an arbitrary plug payload type;
* the visitor traversals (`MetaTreeTypeChecker`, `MetaTreePlugWriterVisitor`,
  `MetaTreePlugReaderVisitor`, `MetaTreeDiffVisitor`) become recursive functions;
* plugs become pairs of pure state-passing functions, Python exceptions become
  `Except` errors, and uncaught exceptions become traversal-aborting errors.
-/

set_option linter.unusedVariables false

/-- Python runtime values occurring in this program.  Dictionaries are modelled
as association lists in insertion order (Python 3 dicts preserve insertion
order, which the type checker's iteration depends on). -/
inductive PyVal where
  | int (n : Int)
  | bool (b : Bool)
  | str (s : String)
  | dict (entries : List (String × PyVal))
  | list (items : List PyVal)

/-- `type(v).__name__` for the modelled values. -/
def pyTypeName : PyVal → String
  | .int _ => "int"
  | .bool _ => "bool"
  | .str _ => "str"
  | .dict _ => "dict"
  | .list _ => "list"

/-- The scalar types the schema declares (`MetaTreeScalar.__ty`). -/
inductive Ty where
  | int | bool | str
  deriving DecidableEq, Repr

/-- `Ty().__name__`. -/
def tyName : Ty → String
  | .int => "int"
  | .bool => "bool"
  | .str => "str"

/-- `type(data) == ty`, the exact runtime-type test of `VisitScalar`.  Python
`type()` distinguishes `bool` from `int`, as do the constructors here. -/
def tyMatches : Ty → PyVal → Bool
  | .int, .int _ => true
  | .bool, .bool _ => true
  | .str, .str _ => true
  | _, _ => false

/-- Python dict lookup `d[k]` on an association list (first binding wins;
Python dicts have unique keys, so the first binding is the only one). -/
def lookupStr (k : String) : List (String × PyVal) → Option PyVal
  | [] => none
  | (k2, v) :: rest => if k2 == k then some v else lookupStr k rest

mutual
/-- Python `==` on the modelled values: numeric equality identifies `bool`
with `int` (`False == 0`), dict equality ignores entry order, list equality
is pointwise. -/
def pyEq : PyVal → PyVal → Bool
  | .int m, .int n => m == n
  | .int m, .bool b => m == (if b then 1 else 0)
  | .bool b, .int n => (if b then (1 : Int) else 0) == n
  | .bool a, .bool b => a == b
  | .str a, .str b => a == b
  | .dict xs, .dict ys => pyEqDictSub xs ys && ys.all (fun e => xs.any (fun e2 => e2.1 == e.1))
  | .list xs, .list ys => pyEqList xs ys
  | _, _ => false

def pyEqList : List PyVal → List PyVal → Bool
  | [], [] => true
  | x :: xs, y :: ys => pyEq x y && pyEqList xs ys
  | _, _ => false

def pyEqDictSub : List (String × PyVal) → List (String × PyVal) → Bool
  | [], _ => true
  | (k, v) :: xs, ys =>
    (match lookupStr k ys with
     | some w => pyEq v w
     | none => false) && pyEqDictSub xs ys
end

/-- No string occurs twice in the list. -/
def allDiff : List String → Bool
  | [] => true
  | k :: ks => !(ks.contains k) && allDiff ks

mutual
/-- The invariant every value coming from Python satisfies: no dict anywhere in
the value has a duplicate key (Python dicts cannot). -/
def pyWF : PyVal → Bool
  | .dict es => allDiff (es.map Prod.fst) && pyWFDict es
  | .list xs => pyWFList xs
  | _ => true

def pyWFList : List PyVal → Bool
  | [] => true
  | x :: xs => pyWF x && pyWFList xs

def pyWFDict : List (String × PyVal) → Bool
  | [] => true
  | (_, v) :: rest => pyWF v && pyWFDict rest
end

mutual
/-- Python `str()`/`repr()` of the modelled values, used in f-string error
messages.  Scalars print like Python (`True`, `-5`, raw strings under `str`);
composites print repr-style. -/
def pyRepr : PyVal → String
  | .int n => toString n
  | .bool b => if b then "True" else "False"
  | .str s => "\x27" ++ s ++ "\x27"
  | .dict es => "\x7b" ++ pyReprDict es ++ "\x7d"
  | .list xs => "[" ++ pyReprList xs ++ "]"

def pyReprList : List PyVal → String
  | [] => ""
  | [x] => pyRepr x
  | x :: xs => pyRepr x ++ ", " ++ pyReprList xs

def pyReprDict : List (String × PyVal) → String
  | [] => ""
  | [(k, v)] => "\x27" ++ k ++ "\x27: " ++ pyRepr v
  | (k, v) :: rest => "\x27" ++ k ++ "\x27: " ++ pyRepr v ++ ", " ++ pyReprDict rest
end

/-- Python `str(v)` (f-string interpolation). -/
def pyStr : PyVal → String
  | .int n => toString n
  | .bool b => if b then "True" else "False"
  | .str s => s
  | v => pyRepr v

/-- The schema tree (`MetaTreeNode` with subclasses `MetaTreeScalar` and
`MetaTreeFixedDict`).  `π` is the plug payload type; traversals that ignore
plugs work for any `π`.  A node's path is not stored: it is the list of names
from the root, passed down by each traversal (as `Path()` derives it from the
parent chain). -/
inductive MetaTreeNode (π : Type) where
  | scalar (name helpstring : String) (applyable : Bool) (ty : Ty) (plug : Option π)
  | fixedDict (name helpstring : String) (applyable : Bool) (plug : Option π)
      (children : List (MetaTreeNode π))

/-- `Name()`. -/
def MetaTreeNode.name : MetaTreeNode π → String
  | .scalar n _ _ _ _ => n
  | .fixedDict n _ _ _ _ => n

/-- `TypeString()`: `"FixedDict"` for groups, the type name for scalars. -/
def MetaTreeNode.typeString : MetaTreeNode π → String
  | .scalar _ _ _ ty _ => tyName ty
  | .fixedDict _ _ _ _ _ => "FixedDict"

/-- `Applyable()`. -/
def MetaTreeNode.applyable : MetaTreeNode π → Bool
  | .scalar _ _ a _ _ => a
  | .fixedDict _ _ a _ _ => a

/-- `Plug()`. -/
def MetaTreeNode.plug : MetaTreeNode π → Option π
  | .scalar _ _ _ _ p => p
  | .fixedDict _ _ _ p _ => p

/-- `'.'.join(node.Path())`. -/
def dotJoin (path : List String) : String := String.intercalate "." path

mutual
/-- `RegisterChild` asserts every child name is registered at most once; this
says the invariant holds throughout a tree. -/
def treeNodup : MetaTreeNode π → Bool
  | .scalar _ _ _ _ _ => true
  | .fixedDict _ _ _ _ cs => allDiff (cs.map MetaTreeNode.name) && treeNodupList cs

def treeNodupList : List (MetaTreeNode π) → Bool
  | [] => true
  | c :: rest => treeNodup c && treeNodupList rest
end

-- ===[ Error message formats of MetaTreeTypeChecker ]===

def typeMismatchMsg (pathstr expected got : String) : String :=
  s!"{pathstr}: type mismatch (expected: {expected} got: {got})"

def invalidKeyMsg (pathstr k : String) : String :=
  s!"{pathstr}: \x22{k}\x22 is not a valid key"

def missingFieldMsg (pathstr k tystr : String) : String :=
  s!"{pathstr}: missing \x22{k}\x22 field [Type = {tystr}]"

mutual
/-- `MetaTreeTypeChecker`: `tcNode anc t data` is the error list the visitor
appends when visiting node `t` (whose ancestor names are `anc`) with candidate
value `data`.

`VisitScalar` (cf2.py:363) emits a type-mismatch error unless the runtime type
equals the declared type exactly.  `VisitFixedDict` (cf2.py:346) emits a
type-mismatch error when the candidate is not a dict; otherwise it walks the
candidate's keys in iteration order — emitting an invalid-key error for keys
that are not children and recursing for keys that are (`tcEntries`) — and then
walks the declared children emitting a missing-field error for each child name
absent from the candidate. -/
def tcNode (anc : List String) (t : MetaTreeNode π) (data : PyVal) : List String :=
  match t with
  | .scalar n _ _ ty _ =>
    if tyMatches ty data then []
    else [typeMismatchMsg (dotJoin (anc ++ [n])) (tyName ty) (pyTypeName data)]
  | .fixedDict n _ _ _ cs =>
    let pathstr := dotJoin (anc ++ [n])
    match data with
    | .dict es =>
      tcEntries (anc ++ [n]) pathstr cs es ++
        (cs.filter (fun c => !(es.any (fun e => e.1 == c.name)))).map (fun c =>
          missingFieldMsg pathstr c.name c.typeString)
    | _ => [typeMismatchMsg pathstr "dict" (pyTypeName data)]

def tcEntries (anc : List String) (pathstr : String) (cs : List (MetaTreeNode π)) :
    List (String × PyVal) → List String
  | [] => []
  | (k, v) :: rest =>
    (match cs.find? (fun c => c.name == k) with
     | some c => tcNode anc c v
     | none => [invalidKeyMsg pathstr k]) ++ tcEntries anc pathstr cs rest
end

/-- `MetaModel`: wraps the root of a schema tree. -/
structure MetaModel (π : Type) where
  root : MetaTreeNode π

/-- `MetaModel.TypeCheck`: run the type-checking visitor from the root with an
empty error list and return the accumulated errors. -/
def MetaModel.TypeCheck (m : MetaModel π) (rawdata : PyVal) : List String :=
  tcNode [] m.root rawdata

/-- `TypecheckedModel`: raw data paired with the metamodel it was checked
against. -/
structure TypecheckedModel (π : Type) where
  rawdata : PyVal
  metamodel : MetaModel π

/-- `CreateTypecheckedModelResult`. -/
structure CreateTypecheckedModelResult (π : Type) where
  success : Bool
  errors : List String
  model : Option (TypecheckedModel π)

/-- `MetaModel.CreateTypecheckedModel` (cf2.py:524): type-check, and construct
the model exactly when the error list is empty. -/
def MetaModel.CreateTypecheckedModel (m : MetaModel π) (rawdata : PyVal) :
    CreateTypecheckedModelResult π :=
  let errs := m.TypeCheck rawdata
  if errs.isEmpty then ⟨true, [], some ⟨rawdata, m⟩⟩
  else ⟨false, errs, none⟩

-- ===[ MetaTreeDiffVisitor ]===

def diffEntryMsg (name leftname leftval rightname rightval : String) : String :=
  s!"{name}: {leftname} = {leftval} | {rightname} = {rightval}"

mutual
/-- `MetaTreeDiffVisitor` (cf2.py:481): groups recurse into children, indexing
both raw values by child name (a missing key or non-dict raises, modelled as
`Except.error`); scalars compare with Python `==` and record a one-line
difference naming only the node (not its full path).  The visitor never looks
at a node's plug or applyable flag. -/
def diffNode (t : MetaTreeNode π) (l r : PyVal) (leftname rightname : String) :
    Except String (List String) :=
  match t with
  | .scalar n _ _ _ _ =>
    if pyEq l r then .ok []
    else .ok [diffEntryMsg n leftname (pyStr l) rightname (pyStr r)]
  | .fixedDict _ _ _ _ cs => diffChildren cs l r leftname rightname

def diffChildren (cs : List (MetaTreeNode π)) (l r : PyVal) (leftname rightname : String) :
    Except String (List String) :=
  match cs with
  | [] => .ok []
  | c :: rest =>
    match l, r with
    | .dict les, .dict res =>
      match lookupStr c.name les, lookupStr c.name res with
      | some lv, some rv =>
        match diffNode c lv rv leftname rightname with
        | .error e => .error e
        | .ok ds1 =>
          match diffChildren rest l r leftname rightname with
          | .error e => .error e
          | .ok ds2 => .ok (ds1 ++ ds2)
      | _, _ => .error "KeyError"
    | _, _ => .error "TypeError"
end

/-- `DiffTypecheckedModels` (cf2.py:493): diff two typechecked models using the
LEFT model's metamodel only (the right model's metamodel is never consulted —
see the TODO on cf2.py:497). -/
def DiffTypecheckedModels (left right : TypecheckedModel π) (leftname rightname : String) :
    Except String (List String) :=
  diffNode left.metamodel.root left.rawdata right.rawdata leftname rightname

-- ===[ Plugs and the reader/writer visitors ]===

/-- `Plug`: a read/write adapter over an external state `σ`.  `read` returns a
value or raises (`Except.error`); `write` durably updates the state or raises.
Real plugs are pure functions of the backing state, so two reads of the same
state return the same value. -/
structure Plug (σ : Type) where
  read : σ → Except String PyVal
  write : PyVal → σ → Except String σ

/-- Ways the plug-writer traversal can abort by an uncaught Python exception:
a `Read` failure inside `__TryWriteIfNeeded` (not wrapped in try),
the failed `assert` in `VisitScalar`, the `raise NotImplemented()` in
`VisitFixedDict` for a plugless non-applyable group, and a failed `rawdata[ch]`
index. -/
inductive WriterAbort where
  | readError (msg : String)
  | assertFailed
  | notImplemented
  | lookupError (key : String)
  deriving DecidableEq, Repr

def applyFailMsg (pathstr e : String) : String :=
  s!"When applying {pathstr}: {e}"

def nonApplyableDiffMsg (pathstr desired actual : String) : String :=
  s!"{pathstr}: difference in non-applyable value (desired = {desired} actual = {actual})"

/-- `MetaTreePlugWriterVisitor.__TryWriteIfNeeded` (cf2.py:403).  Returns the
optional error string of the Python method together with the updated state and
the number of `Write` invocations (0 or 1; a `Write` that raises still counts
as an invocation, its exception is caught and turned into the error string).
If diff-only mode is on or the node is not applyable, the live value is read
first (a read failure propagates as an abort): an equal value means nothing to
do, a different value on a non-applyable node becomes the distinct
`difference in non-applyable value` error; only otherwise is `Write`
attempted. -/
def tryWriteIfNeeded (diffonly : Bool) (path : List String) (applyable : Bool)
    (p : Plug σ) (rawdata : PyVal) (s : σ) :
    Except WriterAbort (Option String × σ × Nat) :=
  let doWrite : Except WriterAbort (Option String × σ × Nat) :=
    match p.write rawdata s with
    | .ok s2 => .ok (none, s2, 1)
    | .error e => .ok (some (applyFailMsg (dotJoin path) e), s, 1)
  if diffonly || !applyable then
    match p.read s with
    | .error e => .error (.readError e)
    | .ok val =>
      if pyEq val rawdata then .ok (none, s, 0)
      else if !applyable then
        .ok (some (nonApplyableDiffMsg (dotJoin path) (pyStr rawdata) (pyStr val)), s, 0)
      else doWrite
  else doWrite

mutual
/-- `MetaTreePlugWriterVisitor` (cf2.py:393): `wvNode` returns the error list
the visitor appends, the final external state, and the number of `Write`
invocations.  `VisitScalar` (cf2.py:433) calls `__TryWriteIfNeeded` and
DISCARDS its returned error string (the Python code never appends it), so a
scalar contributes no errors.  `VisitFixedDict` (cf2.py:419) with a plug
appends the returned error string if any; without a plug it raises
`NotImplemented()` when the group is not applyable, and otherwise recurses
into each child with `rawdata[childname]`. -/
def wvNode (diffonly : Bool) (anc : List String) (t : MetaTreeNode (Plug σ)) (rawdata : PyVal)
    (s : σ) : Except WriterAbort (List String × σ × Nat) :=
  match t with
  | .scalar n _ a _ op =>
    match op with
    | none => .error .assertFailed
    | some p =>
      match tryWriteIfNeeded diffonly (anc ++ [n]) a p rawdata s with
      | .error ab => .error ab
      | .ok (_, s2, w) => .ok ([], s2, w)
  | .fixedDict n _ a op cs =>
    match op with
    | some p =>
      match tryWriteIfNeeded diffonly (anc ++ [n]) a p rawdata s with
      | .error ab => .error ab
      | .ok (none, s2, w) => .ok ([], s2, w)
      | .ok (some e, s2, w) => .ok ([e], s2, w)
    | none =>
      if !a then .error .notImplemented
      else wvChildren diffonly (anc ++ [n]) cs rawdata s

def wvChildren (diffonly : Bool) (anc : List String) (cs : List (MetaTreeNode (Plug σ)))
    (rawdata : PyVal) (s : σ) : Except WriterAbort (List String × σ × Nat) :=
  match cs with
  | [] => .ok ([], s, 0)
  | c :: rest =>
    match rawdata with
    | .dict es =>
      match lookupStr c.name es with
      | none => .error (.lookupError c.name)
      | some v =>
        match wvNode diffonly anc c v s with
        | .error ab => .error ab
        | .ok (errs1, s1, w1) =>
          match wvChildren diffonly anc rest rawdata s1 with
          | .error ab => .error ab
          | .ok (errs2, s2, w2) => .ok (errs1 ++ errs2, s2, w1 + w2)
    | _ => .error (.lookupError c.name)
end

mutual
/-- `MetaTreePlugReaderVisitor` (cf2.py:370): `rdNode` returns the raw value
the reader stores under the node's name.  A group with its own plug reads the
whole subtree from that plug; a plugless group assembles a dict from its
children in declaration order; a scalar reads its plug (asserting one exists).
Any read failure propagates immediately and aborts the whole read. -/
def rdNode (t : MetaTreeNode (Plug σ)) (s : σ) : Except String PyVal :=
  match t with
  | .scalar _ _ _ _ op =>
    match op with
    | none => .error "assertion failed: scalar node without plug"
    | some p => p.read s
  | .fixedDict _ _ _ op cs =>
    match op with
    | some p => p.read s
    | none =>
      match rdChildren cs s with
      | .error e => .error e
      | .ok prs => .ok (.dict prs)

def rdChildren (cs : List (MetaTreeNode (Plug σ))) (s : σ) :
    Except String (List (String × PyVal)) :=
  match cs with
  | [] => .ok []
  | c :: rest =>
    match rdNode c s with
    | .error e => .error e
    | .ok v =>
      match rdChildren rest s with
      | .error e => .error e
      | .ok prs => .ok ((c.name, v) :: prs)
end

/-- `ReadSystemConfig` (cf2.py:618): read the whole tree through the plugs,
type-check the result, and return the typechecked model (an error if reading
or type-checking fails). -/
def ReadSystemConfig (m : MetaModel (Plug σ)) (s : σ) :
    Except String (TypecheckedModel (Plug σ)) :=
  match rdNode m.root s with
  | .error e => .error e
  | .ok v =>
    let result := m.CreateTypecheckedModel v
    match result.model with
    | some model => .ok model
    | none => .error (String.intercalate "," result.errors)

/-- `ApplySystemConfig` (cf2.py:629): run the plug-writer visitor from the
root; on normal termination return the accumulated error list (plus, in this
embedding, the final state and the `Write` invocation count). -/
def ApplySystemConfig (model : TypecheckedModel (Plug σ)) (diffonly : Bool) (s : σ) :
    Except WriterAbort (List String × σ × Nat) :=
  wvNode diffonly [] model.metamodel.root model.rawdata s

-- ===[ String plugs and ThpOptionPlug ]===

/-- A plug whose values are strings (`FileStrPlug` and its wrappers). -/
structure StrPlug (σ : Type) where
  read : σ → Except String String
  write : String → σ → Except String σ

/-- Python `str.split()` with no delimiter: split on runs of whitespace,
discarding empty tokens.  `cur` holds the current word reversed. -/
def wordsAux (cur : List Char) : List Char → List String
  | [] => if cur.isEmpty then [] else [String.mk cur.reverse]
  | c :: rest =>
    if c.isWhitespace then
      if cur.isEmpty then wordsAux [] rest
      else String.mk cur.reverse :: wordsAux [] rest
    else wordsAux (c :: cur) rest

def pySplitWs (s : String) : List String := wordsAux [] s.toList

/-- `word[0] == '[' and word[-1] == ']'` (cf2.py:110). -/
def isBracketed (w : String) : Bool :=
  match w.toList with
  | [] => false
  | c :: cs => c == '[' && ((c :: cs).getLast? == some ']')

/-- `word[1:-1]`: the word with its first and last characters removed. -/
def stripEnds (w : String) : String := String.mk ((w.toList.drop 1).dropLast)

/-- The scan loop of `ThpOptionPlug.Read` (cf2.py:109): return the first
bracketed token with the brackets stripped, or raise if none is bracketed. -/
def thpScan : List String → Except String String
  | [] => .error "error reading thp option"
  | w :: ws => if isBracketed w then .ok (stripEnds w) else thpScan ws

/-- `ThpOptionPlug` (cf2.py:99): read scans the whitespace-separated tokens of
the underlying string plug's value; write delegates the raw value unchanged. -/
def ThpOptionPlug (inner : StrPlug σ) : StrPlug σ :=
  { read := fun s =>
      match inner.read s with
      | .error e => .error e
      | .ok str => thpScan (pySplitWs str)
    write := inner.write }

/-- A string plug over a trivial state that always reads the given text. -/
def constStrPlug (v : String) : StrPlug Unit :=
  { read := fun _ => .ok v, write := fun _ s => .ok s }

-- ===[ Definitions transcribed from the spec's words, for comparison ]===

/-- The error ordering for a group node as the spec sentence states it:
all unknown-key errors in candidate iteration order, then the recursive errors
of keys present on both sides in DECLARED-CHILD order, then all missing-field
errors in declared-child order.  (The code's actual order is `tcNode`.) -/
def typeCheckClaimedOrder (anc : List String) (t : MetaTreeNode π) (data : PyVal) :
    List String :=
  match t, data with
  | .fixedDict n _ _ _ cs, .dict es =>
    let pathstr := dotJoin (anc ++ [n])
    ((es.filter (fun e => (cs.find? (fun c => c.name == e.1)).isNone)).map (fun e =>
        invalidKeyMsg pathstr e.1)) ++
    ((cs.filterMap (fun c => (lookupStr c.name es).map (fun v => tcNode (anc ++ [n]) c v))).flatten) ++
    ((cs.filter (fun c => !(es.any (fun e => e.1 == c.name)))).map (fun c =>
        missingFieldMsg pathstr c.name c.typeString))
  | t, data => tcNode anc t data

-- ===[ Concrete schemas and data used by the test-scenario claims ]===

/-- The schema of tests/tests.py: top{bar:int, baz{name:str, age:int}, teams{soccer:str, nfl:str}}. -/
def testSchemaTree : MetaTreeNode Unit :=
  .fixedDict "top" "i am top" true none
    [.scalar "bar" "i am bar" true .int none,
     .fixedDict "baz" "i am baz" true none
       [.scalar "name" "persons name" true .str none,
        .scalar "age" "persons age" false .int none],
     .fixedDict "teams" "sports teams" true none
       [.scalar "soccer" "soccer" true .str none,
        .scalar "nfl" "american football" true .str none]]

def testMetamodel : MetaModel Unit := ⟨testSchemaTree⟩

/-- `BAD_RAW_DATA` of tests/tests.py. -/
def badRawData : PyVal :=
  .dict [("bar", .bool false),
         ("baz", .dict [("age", .str "100"),
                        ("hobby", .list [.str "fishing", .str "eating"])]),
         ("teams", .int 619),
         ("etc", .dict [("phone", .int 123456709)])]

/-- `GOOD_RAW_DATA` of tests/tests.py. -/
def goodRawData : PyVal :=
  .dict [("bar", .int 5),
         ("baz", .dict [("name", .str "john"), ("age", .int 37)]),
         ("teams", .dict [("soccer", .str "man utd"), ("nfl", .str "tigers")])]

-- ===[ Small helper lemmas ]===

theorem tcEntries_eq_flatten (anc : List String) (ps : String) (cs : List (MetaTreeNode π)) :
    ∀ es : List (String × PyVal),
      tcEntries anc ps cs es =
        (es.map (fun e =>
          match cs.find? (fun c => c.name == e.1) with
          | some c => tcNode anc c e.2
          | none => [invalidKeyMsg ps e.1])).flatten
  | [] => by simp [tcEntries]
  | (k, v) :: rest => by
    rw [tcEntries, tcEntries_eq_flatten anc ps cs rest]
    simp

-- ===[ Claim theorems: type checking ]===

/-- C2: on the concrete test schema top{bar:int, baz{name:str, age:int},
teams{soccer:str, nfl:str}}, `TypeCheck` applied to the bad raw value
{bar:false, baz:{age:"100", hobby:[...]}, teams:619, etc:{phone:123456709}}
returns exactly six errors, in exactly the order the tests pin down. -/
theorem typecheck_bad_data_exact :
    testMetamodel.TypeCheck badRawData =
      ["top.bar: type mismatch (expected: int got: bool)",
       "top.baz.age: type mismatch (expected: int got: str)",
       "top.baz: \x22hobby\x22 is not a valid key",
       "top.baz: missing \x22name\x22 field [Type = str]",
       "top.teams: type mismatch (expected: dict got: int)",
       "top: \x22etc\x22 is not a valid key"] := by
  decide

/-- C3 counterexample: the spec's claimed emission order for group errors
(unknown keys first, then recursion in declared-child order) disagrees with
the code on the schema top{a:int, b:int} and candidate {b:"x", zz:1}: the
code emits the recursive error for `b` BEFORE the unknown-key error for `zz`
because the two interleave in candidate iteration order. -/
theorem typecheck_order_counterexample :
    tcNode [] (.fixedDict "top" "t" true none
        [.scalar "a" "" true .int none, .scalar "b" "" true .int (none : Option Unit)])
        (.dict [("b", .str "x"), ("zz", .int 1)]) ≠
      typeCheckClaimedOrder [] (.fixedDict "top" "t" true none
        [.scalar "a" "" true .int none, .scalar "b" "" true .int (none : Option Unit)])
        (.dict [("b", .str "x"), ("zz", .int 1)]) := by
  decide

/-- C3 amended: for every group node and every map-shaped candidate, the
type-checker emits, for each candidate key in candidate iteration order,
either its unknown-key error (if the key names no declared child) or that
child's depth-first recursive errors, and after this single pass the
missing-field errors in declared-child order. -/
theorem typecheck_group_order (anc : List String) (n h : String) (a : Bool)
    (p : Option π) (cs : List (MetaTreeNode π)) (es : List (String × PyVal)) :
    tcNode anc (.fixedDict n h a p cs) (.dict es) =
      (es.map (fun e =>
        match cs.find? (fun c => c.name == e.1) with
        | some c => tcNode (anc ++ [n]) c e.2
        | none => [invalidKeyMsg (dotJoin (anc ++ [n])) e.1])).flatten ++
      (cs.filter (fun c => !(es.any (fun e => e.1 == c.name)))).map (fun c =>
        missingFieldMsg (dotJoin (anc ++ [n])) c.name c.typeString) := by
  rw [tcNode, tcEntries_eq_flatten]

/-- C6: `CreateTypecheckedModel` succeeds exactly when `TypeCheck` returns the
empty list; its error list always equals the `TypeCheck` result (so it is
empty on success), and its model is the typed configuration value holding
exactly the raw value and the metamodel on success and nothing on failure. -/
theorem wrap_iff_typecheck_empty (m : MetaModel π) (v : PyVal) :
    ((m.CreateTypecheckedModel v).success = true ↔ m.TypeCheck v = []) ∧
    (m.CreateTypecheckedModel v).errors = m.TypeCheck v ∧
    (m.CreateTypecheckedModel v).model =
      (if m.TypeCheck v = [] then some ⟨v, m⟩ else none) := by
  by_cases hv : m.TypeCheck v = [] <;>
    simp [MetaModel.CreateTypecheckedModel, hv]

-- ===[ Claim theorems: writer visitor ]===

/-- C1 (code bug): `VisitScalar` of the plug-writer visitor discards the error
string returned by `__TryWriteIfNeeded`, so a scalar whose adapter `Write`
fails contributes NOTHING to the accumulated error list: in non-diff-only
mode the visit of an applyable scalar returns an empty error list whether the
write succeeded or raised.  An empty returned error list therefore does not
imply that no node failed, contradicting the claim. -/
theorem scalar_write_failure_swallowed (n h : String) (ty : Ty) (p : Plug σ)
    (raw : PyVal) (s : σ) (anc : List String) :
    wvNode false anc (.scalar n h true ty (some p)) raw s =
      match p.write raw s with
      | .ok s2 => .ok ([], s2, 1)
      | .error _ => .ok ([], s, 1) := by
  cases hw : p.write raw s <;>
    simp [wvNode, tryWriteIfNeeded, hw]

/-- C4 (code bug): a non-applyable node never has `Write` invoked on its
adapter, in either mode: its visit only reads and compares, leaves the state
unchanged and performs zero writes.  But the resulting divergence error is
only appended for a group that owns the adapter; at a scalar the error is
discarded (`VisitScalar` drops the returned string), so the claimed
reporting does not happen there. -/
theorem nonapplyable_never_writes (d : Bool) (anc : List String) (n h : String)
    (ty : Ty) (p : Plug σ) (raw : PyVal) (s : σ) (cs : List (MetaTreeNode (Plug σ))) :
    (wvNode d anc (.scalar n h false ty (some p)) raw s =
      match p.read s with
      | .error e => .error (.readError e)
      | .ok _ => .ok ([], s, 0)) ∧
    (wvNode d anc (.fixedDict n h false (some p) cs) raw s =
      match p.read s with
      | .error e => .error (.readError e)
      | .ok val =>
        if pyEq val raw then .ok ([], s, 0)
        else .ok ([nonApplyableDiffMsg (dotJoin (anc ++ [n])) (pyStr raw) (pyStr val)], s, 0)) := by
  constructor <;>
    · cases hr : p.read s with
      | error e => simp [wvNode, tryWriteIfNeeded, hr]
      | ok val =>
        by_cases hq : pyEq val raw = true <;>
          simp [wvNode, tryWriteIfNeeded, hr, hq]

/-- C9: a plugless group with `applyable = false` makes the writer visitor
raise (the `raise NotImplemented()` on cf2.py:428, modelled as the
`notImplemented` abort): the visit aborts without recursing into the group's
children and without touching the error list, and a parent traversal
propagates the abort instead of catching it. -/
theorem plugless_nonapplyable_group_raises (d : Bool) (anc : List String)
    (n h : String) (cs : List (MetaTreeNode (Plug σ))) (raw : PyVal) (s : σ) :
    (wvNode d anc (.fixedDict n h false none cs) raw s = .error .notImplemented) ∧
    (∀ (pn ph : String) (x : PyVal),
      wvNode d anc (.fixedDict pn ph true none [.fixedDict n h false none cs])
          (.dict [(n, x)]) s = .error .notImplemented) := by
  constructor
  · simp [wvNode]
  · intro pn ph x
    simp [wvNode, wvChildren, lookupStr, MetaTreeNode.name]

-- ===[ Claim theorems: ThpOptionPlug ]===

theorem thpScan_eq_find : ∀ ws : List String,
    thpScan ws =
      match ws.find? isBracketed with
      | some w => .ok (stripEnds w)
      | none => .error "error reading thp option"
  | [] => by simp [thpScan]
  | w :: ws => by
    rw [thpScan, List.find?]
    by_cases hb : isBracketed w <;> simp [hb, thpScan_eq_find ws]

/-- C8: the option-select adapter's read scans the whitespace-separated tokens
of the underlying string adapter's value and returns the first token that has
a leading bracket and a trailing bracket, with those two characters stripped
(so for underlying text `always [madvise] never` it returns `madvise`),
failing when no token is bracketed (`find?` returns `none`); its write
delegates the raw value unchanged to the underlying string adapter. -/
theorem thp_option_plug_spec :
    (∀ ws : List String,
      thpScan ws =
        match ws.find? isBracketed with
        | some w => .ok (stripEnds w)
        | none => .error "error reading thp option") ∧
    (∀ (σ : Type) (inner : StrPlug σ) (s : σ),
      (ThpOptionPlug inner).read s =
        match inner.read s with
        | .error e => .error e
        | .ok str => thpScan (pySplitWs str)) ∧
    (ThpOptionPlug (constStrPlug "always [madvise] never")).read () = .ok "madvise" ∧
    (∀ (σ : Type) (inner : StrPlug σ) (v : String) (s : σ),
      (ThpOptionPlug inner).write v s = inner.write v s) := by
  refine ⟨thpScan_eq_find, fun σ inner s => rfl, ?_, fun σ inner v s => rfl⟩
  rfl

-- ===[ Claim theorems: diff uses only the left metamodel ]===

/-- C10: `DiffTypecheckedModels` traverses using the left model's metamodel
only: for a fixed left model and fixed labels, two right models with equal raw
data produce identical diff output, whatever metamodels the right models
carry. -/
theorem diff_ignores_right_metamodel (left r1 r2 : TypecheckedModel π)
    (leftname rightname : String) (hraw : r1.rawdata = r2.rawdata) :
    DiffTypecheckedModels left r1 leftname rightname =
      DiffTypecheckedModels left r2 leftname rightname := by
  unfold DiffTypecheckedModels
  rw [hraw]

/-- C10 witness: two right models over the same raw data but different
metamodels diff identically against a concrete left model. -/
theorem diff_ignores_right_metamodel_witness :
    ((⟨goodRawData, testMetamodel⟩ : TypecheckedModel Unit).rawdata =
      (⟨goodRawData, ⟨.scalar "other" "o" true .int none⟩⟩ : TypecheckedModel Unit).rawdata) ∧
    DiffTypecheckedModels (⟨goodRawData, testMetamodel⟩ : TypecheckedModel Unit)
        ⟨goodRawData, testMetamodel⟩ "file" "system" =
      DiffTypecheckedModels (⟨goodRawData, testMetamodel⟩ : TypecheckedModel Unit)
        ⟨goodRawData, ⟨.scalar "other" "o" true .int none⟩⟩ "file" "system" :=
  ⟨rfl, diff_ignores_right_metamodel _ _ _ "file" "system" rfl⟩

-- ===[ Lemma kit: lookups, duplicate-freedom, Python equality ]===

theorem lookupStr_mem : ∀ {es : List (String × PyVal)} {k : String} {v : PyVal},
    lookupStr k es = some v → (k, v) ∈ es
  | [], k, v, h => by simp [lookupStr] at h
  | (k2, w) :: rest, k, v, h => by
    rw [lookupStr] at h
    by_cases hk : k2 == k
    · simp [hk] at h
      subst h
      simp at hk
      subst hk
      exact List.mem_cons_self _ _
    · simp [hk] at h
      exact List.mem_cons_of_mem _ (lookupStr_mem h)

theorem lookupStr_of_mem_nodup : ∀ {es : List (String × PyVal)} {k : String} {v : PyVal},
    allDiff (es.map Prod.fst) = true → (k, v) ∈ es → lookupStr k es = some v
  | [], k, v, _, hm => by simp at hm
  | (k2, w) :: rest, k, v, hd, hm => by
    rw [List.map_cons, allDiff] at hd
    simp only [Bool.and_eq_true, Bool.not_eq_true'] at hd
    rcases List.mem_cons.mp hm with heq | hmem
    · cases heq
      simp [lookupStr]
    · have hne : k2 ≠ k := by
        intro hkk
        subst hkk
        have : k2 ∈ rest.map Prod.fst := List.mem_map.mpr ⟨(k2, v), hmem, rfl⟩
        have hc : (rest.map Prod.fst).contains k2 = true := List.elem_iff.mpr this
        exact Bool.noConfusion (hd.1.symm.trans hc)
      rw [lookupStr]
      simp only [beq_iff_eq, hne, if_false]
      exact lookupStr_of_mem_nodup hd.2 hmem

theorem pyWFDict_of_mem : ∀ {es : List (String × PyVal)} {k : String} {v : PyVal},
    pyWFDict es = true → (k, v) ∈ es → pyWF v = true
  | [], k, v, _, hm => by simp at hm
  | (k2, w) :: rest, k, v, hd, hm => by
    rw [pyWFDict] at hd
    simp only [Bool.and_eq_true] at hd
    rcases List.mem_cons.mp hm with heq | hmem
    · cases heq
      exact hd.1
    · exact pyWFDict_of_mem hd.2 hmem

theorem pyEqDictSub_iff : ∀ (xs ys : List (String × PyVal)),
    pyEqDictSub xs ys = true ↔
      ∀ p ∈ xs, ∃ w, lookupStr p.1 ys = some w ∧ pyEq p.2 w = true
  | [], ys => by simp [pyEqDictSub]
  | (k, v) :: rest, ys => by
    rw [pyEqDictSub]
    simp only [Bool.and_eq_true]
    rw [pyEqDictSub_iff rest ys]
    constructor
    · rintro ⟨h1, h2⟩ p hp
      rcases List.mem_cons.mp hp with heq | hmem
      · subst heq
        rcases hw : lookupStr k ys with _ | w
        · rw [hw] at h1; exact absurd h1 (by simp)
        · rw [hw] at h1; exact ⟨w, rfl, h1⟩
      · exact h2 p hmem
    · intro h
      constructor
      · rcases h (k, v) (List.mem_cons_self _ _) with ⟨w, hw, he⟩
        rw [hw]
        exact he
      · exact fun p hp => h p (List.mem_cons_of_mem _ hp)

theorem pyEqList_refl_of (hx : ∀ x ∈ xs, pyWF x = true → pyEq x x = true) :
    pyWFList xs = true → pyEqList xs xs = true := by
  induction xs with
  | nil => intro _; rw [pyEqList]
  | cons x rest ihx =>
    intro hwf
    rw [pyWFList] at hwf
    simp only [Bool.and_eq_true] at hwf
    rw [pyEqList]
    simp only [Bool.and_eq_true]
    exact ⟨hx x (List.mem_cons_self _ _) hwf.1,
           ihx (fun y hy => hx y (List.mem_cons_of_mem _ hy)) hwf.2⟩

theorem pyEq_refl_aux : ∀ (N : Nat) (v : PyVal), sizeOf v ≤ N → pyWF v = true → pyEq v v = true := by
  intro N
  induction N with
  | zero =>
    intro v hv
    cases v <;> simp at hv
  | succ N ih =>
    intro v hv hwf
    match v with
    | .int n => simp [pyEq]
    | .bool b => simp [pyEq]
    | .str s => simp [pyEq]
    | .list xs =>
      rw [pyEq]
      rw [pyWF] at hwf
      rw [PyVal.list.sizeOf_spec] at hv
      refine pyEqList_refl_of (fun x hx hwx => ih x ?_ hwx) hwf
      have := List.sizeOf_lt_of_mem hx
      omega
    | .dict es =>
      rw [pyEq]
      rw [pyWF] at hwf
      rw [PyVal.dict.sizeOf_spec] at hv
      simp only [Bool.and_eq_true] at hwf
      simp only [Bool.and_eq_true]
      constructor
      · rw [pyEqDictSub_iff]
        rintro ⟨pk, pv⟩ hp
        refine ⟨pv, lookupStr_of_mem_nodup hwf.1 hp, ?_⟩
        refine ih pv ?_ (pyWFDict_of_mem hwf.2 hp)
        have hm := List.sizeOf_lt_of_mem hp
        simp at hm
        omega
      · rw [List.all_eq_true]
        intro e he
        rw [List.any_eq_true]
        exact ⟨e, he, by simp⟩

/-- Python `==` is reflexive on values without duplicated dict keys. -/
theorem pyEq_refl (v : PyVal) (hwf : pyWF v = true) : pyEq v v = true :=
  pyEq_refl_aux (sizeOf v) v (Nat.le_refl _) hwf

-- ===[ Round trip: read followed by diff-only apply ]===

mutual
/-- Every plugless group in the tree is applyable.  This holds of every tree
`GenerateMetamodel` builds (its only non-applyable group, the kernel-version
group, carries its own plug); a plugless non-applyable group makes the writer
raise, see `plugless_nonapplyable_group_raises`. -/
def groupsApplyable : MetaTreeNode π → Bool
  | .scalar _ _ _ _ _ => true
  | .fixedDict _ _ a p cs => (p.isSome || a) && groupsApplyableList cs

def groupsApplyableList : List (MetaTreeNode π) → Bool
  | [] => true
  | c :: rest => groupsApplyable c && groupsApplyableList rest
end

theorem treeNodupList_of_mem : ∀ {cs : List (MetaTreeNode π)} {c : MetaTreeNode π},
    treeNodupList cs = true → c ∈ cs → treeNodup c = true
  | [], c, _, hm => by simp at hm
  | c0 :: rest, c, h, hm => by
    rw [treeNodupList] at h
    simp only [Bool.and_eq_true] at h
    rcases List.mem_cons.mp hm with heq | hmem
    · subst heq; exact h.1
    · exact treeNodupList_of_mem h.2 hmem

theorem groupsApplyableList_of_mem : ∀ {cs : List (MetaTreeNode π)} {c : MetaTreeNode π},
    groupsApplyableList cs = true → c ∈ cs → groupsApplyable c = true
  | [], c, _, hm => by simp at hm
  | c0 :: rest, c, h, hm => by
    rw [groupsApplyableList] at h
    simp only [Bool.and_eq_true] at h
    rcases List.mem_cons.mp hm with heq | hmem
    · subst heq; exact h.1
    · exact groupsApplyableList_of_mem h.2 hmem

theorem rdChildren_lookup : ∀ (cs : List (MetaTreeNode (Plug σ))) (s : σ)
    (prs : List (String × PyVal)),
    rdChildren cs s = .ok prs → allDiff (cs.map MetaTreeNode.name) = true →
    ∀ c ∈ cs, ∃ v, lookupStr c.name prs = some v ∧ rdNode c s = .ok v
  | [], s, prs, _, _, c, hm => by simp at hm
  | c0 :: rest, s, prs, h, hnd, c, hm => by
    rw [rdChildren] at h
    rcases hrc : rdNode c0 s with e | v0
    · rw [hrc] at h; exact absurd h (by simp)
    rw [hrc] at h
    rcases hrr : rdChildren rest s with e | prs'
    · rw [hrr] at h; exact absurd h (by simp)
    rw [hrr] at h
    simp only [Except.ok.injEq] at h
    subst h
    rw [List.map_cons, allDiff] at hnd
    simp only [Bool.and_eq_true, Bool.not_eq_true'] at hnd
    rcases List.mem_cons.mp hm with heq | hmem
    · subst heq
      exact ⟨v0, by rw [lookupStr]; simp, hrc⟩
    · rcases rdChildren_lookup rest s prs' hrr hnd.2 c hmem with ⟨v, hl, hr⟩
      refine ⟨v, ?_, hr⟩
      rw [lookupStr]
      have hne : c0.name ≠ c.name := by
        intro hkk
        have : c0.name ∈ rest.map MetaTreeNode.name :=
          List.mem_map.mpr ⟨c, hmem, hkk.symm⟩
        have hc : (rest.map MetaTreeNode.name).contains c0.name = true := List.elem_iff.mpr this
        exact Bool.noConfusion (hnd.1.symm.trans hc)
      simp only [beq_iff_eq, hne, if_false]
      exact hl

theorem wvChildren_ok_of (anc : List String) (s : σ) (es : List (String × PyVal)) :
    ∀ cs : List (MetaTreeNode (Plug σ)),
    (∀ c ∈ cs, ∃ v, lookupStr c.name es = some v ∧ wvNode true anc c v s = .ok ([], s, 0)) →
    wvChildren true anc cs (.dict es) s = .ok ([], s, 0)
  | [], _ => by rw [wvChildren]
  | c :: rest, h => by
    rcases h c (List.mem_cons_self _ _) with ⟨v, hl, hw⟩
    have hrest := wvChildren_ok_of anc s es rest (fun c2 h2 => h c2 (List.mem_cons_of_mem _ h2))
    rw [wvChildren]
    simp [hl, hw, hrest]

theorem roundtrip_aux : ∀ (N : Nat) (t : MetaTreeNode (Plug σ)) (anc : List String) (s : σ)
    (v : PyVal), sizeOf t ≤ N → treeNodup t = true → groupsApplyable t = true →
    rdNode t s = .ok v → pyWF v = true →
    wvNode true anc t v s = .ok ([], s, 0) := by
  intro N
  induction N with
  | zero =>
    intro t anc s v ht
    exfalso
    cases t <;> simp at ht
  | succ N ih =>
    intro t anc s v ht hnd hga hrd hwf
    match t with
    | .scalar n hs a ty op =>
      cases op with
      | none =>
        rw [rdNode] at hrd
        exact absurd hrd (by simp)
      | some p =>
        rw [rdNode] at hrd
        simp [wvNode, tryWriteIfNeeded, hrd, pyEq_refl v hwf]
    | .fixedDict n hs a op cs =>
      cases op with
      | some p =>
        rw [rdNode] at hrd
        simp [wvNode, tryWriteIfNeeded, hrd, pyEq_refl v hwf]
      | none =>
        rw [rdNode] at hrd
        rcases hrc : rdChildren cs s with e | prs
        · rw [hrc] at hrd; exact absurd hrd (by simp)
        rw [hrc] at hrd
        simp only [Except.ok.injEq] at hrd
        subst hrd
        rw [groupsApplyable] at hga
        simp only [Option.isSome_none, Bool.false_or, Bool.and_eq_true] at hga
        rw [treeNodup] at hnd
        simp only [Bool.and_eq_true] at hnd
        rw [pyWF] at hwf
        simp only [Bool.and_eq_true] at hwf
        rw [wvNode]
        simp only [hga.1, Bool.not_true]
        rw [if_neg (by simp)]
        refine wvChildren_ok_of _ s prs cs (fun c hc => ?_)
        rcases rdChildren_lookup cs s prs hrc hnd.1 c hc with ⟨vc, hl, hr⟩
        refine ⟨vc, hl, ?_⟩
        refine ih c (anc ++ [n]) s vc ?_ (treeNodupList_of_mem hnd.2 hc)
          (groupsApplyableList_of_mem hga.2 hc) hr
          (pyWFDict_of_mem hwf.2 (lookupStr_mem hl))
        have hm := List.sizeOf_lt_of_mem hc
        rw [MetaTreeNode.fixedDict.sizeOf_spec] at ht
        omega

/-- C5: if the external state is unchanged between the two operations, reading
the live configuration through the plugs and immediately applying the
resulting typechecked model in diff-only mode performs zero plug `Write`
invocations, leaves the state unchanged, and returns an empty error list.
(The tree must satisfy the two invariants every registry-generated tree has:
no duplicate child names, and no plugless non-applyable group; the raw value a
Python read produces never has duplicate dict keys.) -/
theorem read_then_apply_diffonly_clean (m : MetaModel (Plug σ)) (s : σ)
    (model : TypecheckedModel (Plug σ))
    (hnd : treeNodup m.root = true) (hga : groupsApplyable m.root = true)
    (hr : ReadSystemConfig m s = .ok model) (hwf : pyWF model.rawdata = true) :
    ApplySystemConfig model true s = .ok ([], s, 0) := by
  rw [ReadSystemConfig] at hr
  rcases hrd : rdNode m.root s with e | v
  · rw [hrd] at hr; exact absurd hr (by simp)
  rw [hrd] at hr
  by_cases htc : (m.TypeCheck v).isEmpty
  · simp only [MetaModel.CreateTypecheckedModel, htc, if_true, Except.ok.injEq] at hr
    subst hr
    exact roundtrip_aux (sizeOf m.root) m.root [] s v (Nat.le_refl _) hnd hga hrd hwf
  · simp only [MetaModel.CreateTypecheckedModel, htc, if_false] at hr
    exact absurd hr (by simp)

def c5Plug : Plug Unit :=
  { read := fun _ => .ok (.int 5), write := fun _ s => .ok s }

def c5Metamodel : MetaModel (Plug Unit) :=
  ⟨.fixedDict "top" "top node" true none [.scalar "x" "an int" true .int (some c5Plug)]⟩

/-- C5 witness: on a concrete one-scalar metamodel over a trivial state, the
hypotheses hold and read-then-diff-only-apply writes nothing and reports
nothing. -/
theorem read_then_apply_diffonly_clean_witness :
    treeNodup c5Metamodel.root = true ∧
    groupsApplyable c5Metamodel.root = true ∧
    ReadSystemConfig c5Metamodel () =
      .ok ⟨.dict [("x", .int 5)], c5Metamodel⟩ ∧
    pyWF (.dict [("x", .int 5)]) = true ∧
    ApplySystemConfig (⟨.dict [("x", .int 5)], c5Metamodel⟩ : TypecheckedModel (Plug Unit))
        true () = .ok ([], (), 0) :=
  ⟨rfl, rfl, rfl, rfl,
    read_then_apply_diffonly_clean c5Metamodel () _ rfl rfl rfl rfl⟩

-- ===[ Diff emptiness versus Python equality ]===

theorem tcEntries_empty_iff (anc : List String) (ps : String) (cs : List (MetaTreeNode π)) :
    ∀ es : List (String × PyVal),
      tcEntries anc ps cs es = [] ↔
        ∀ e ∈ es, ∃ c, cs.find? (fun c2 => c2.name == e.1) = some c ∧ tcNode anc c e.2 = []
  | [] => by simp [tcEntries]
  | (k, v) :: rest => by
    rw [tcEntries, List.append_eq_nil, tcEntries_empty_iff anc ps cs rest]
    constructor
    · rintro ⟨h1, h2⟩ e he
      rcases List.mem_cons.mp he with heq | hmem
      · subst heq
        rcases hf : cs.find? (fun c2 => c2.name == k) with _ | c
        · rw [hf] at h1; exact absurd h1 (by simp)
        · rw [hf] at h1; exact ⟨c, hf, h1⟩
      · exact h2 e hmem
    · intro hh
      refine ⟨?_, fun e he => hh e (List.mem_cons_of_mem _ he)⟩
      rcases hh (k, v) (List.mem_cons_self _ _) with ⟨c, hf, hc⟩
      rw [hf]
      exact hc

theorem find?_self_of_nodup : ∀ {cs : List (MetaTreeNode π)} {c : MetaTreeNode π},
    allDiff (cs.map MetaTreeNode.name) = true → c ∈ cs →
    cs.find? (fun c2 => c2.name == c.name) = some c
  | [], c, _, hm => by simp at hm
  | c0 :: rest, c, hnd, hm => by
    rw [List.map_cons, allDiff] at hnd
    simp only [Bool.and_eq_true, Bool.not_eq_true'] at hnd
    rcases List.mem_cons.mp hm with heq | hmem
    · subst heq
      exact List.find?_cons_of_pos _ (by simp)
    · have hne : c0.name ≠ c.name := by
        intro hkk
        have : c0.name ∈ rest.map MetaTreeNode.name :=
          List.mem_map.mpr ⟨c, hmem, hkk.symm⟩
        have hc : (rest.map MetaTreeNode.name).contains c0.name = true := List.elem_iff.mpr this
        exact Bool.noConfusion (hnd.1.symm.trans hc)
      rw [List.find?_cons_of_neg _ (by simp [hne])]
      exact find?_self_of_nodup hnd.2 hmem

theorem find?_name_eq {cs : List (MetaTreeNode π)} {c : MetaTreeNode π} {k : String}
    (h : cs.find? (fun c2 => c2.name == k) = some c) : c.name = k ∧ c ∈ cs := by
  have h1 := List.find?_some h
  simp only [beq_iff_eq] at h1
  exact ⟨h1, List.mem_of_find?_eq_some h⟩

theorem diff_children_char : ∀ (cs : List (MetaTreeNode π)) (ln rn : String)
    (les res : List (String × PyVal)),
    (∀ c ∈ cs, ∃ lv rv, lookupStr c.name les = some lv ∧ lookupStr c.name res = some rv ∧
      (∃ ds, diffNode c lv rv ln rn = .ok ds) ∧
      (diffNode c lv rv ln rn = .ok [] ↔ pyEq lv rv = true)) →
    (∃ ds, diffChildren cs (.dict les) (.dict res) ln rn = .ok ds) ∧
    (diffChildren cs (.dict les) (.dict res) ln rn = .ok [] ↔
      ∀ c ∈ cs, ∀ lv rv, lookupStr c.name les = some lv → lookupStr c.name res = some rv →
        pyEq lv rv = true)
  | [], ln, rn, les, res => fun _ => by
    refine ⟨⟨[], by rw [diffChildren]⟩, ?_⟩
    rw [diffChildren]
    simp
  | c :: rest, ln, rn, les, res => fun h => by
    rcases h c (List.mem_cons_self _ _) with ⟨lv, rv, hl, hr, ⟨ds, hds⟩, hiff⟩
    rcases diff_children_char rest ln rn les res
      (fun c2 h2 => h c2 (List.mem_cons_of_mem _ h2)) with ⟨⟨ds2, hds2⟩, hiff2⟩
    constructor
    · refine ⟨ds ++ ds2, ?_⟩
      rw [diffChildren]
      simp [hl, hr, hds, hds2]
    · rw [diffChildren]
      simp only [hl, hr, hds, hds2]
      constructor
      · intro hok c2 hc2 lv2 rv2 hl2 hr2
        simp only [Except.ok.injEq, List.append_eq_nil] at hok
        rcases List.mem_cons.mp hc2 with heq | hmem
        · subst heq
          rw [hl] at hl2
          rw [hr] at hr2
          cases hl2
          cases hr2
          exact hiff.mp (by rw [hds, hok.1])
        · exact hiff2.mp (by rw [hds2, hok.2]) c2 hmem lv2 rv2 hl2 hr2
      · intro hall
        have h1 : ds = [] := by
          have := hiff.mpr (hall c (List.mem_cons_self _ _) lv rv hl hr)
          rw [hds] at this
          exact Except.ok.inj this
        have h2 : ds2 = [] := by
          have := hiff2.mpr (fun c2 h2 => hall c2 (List.mem_cons_of_mem _ h2))
          rw [hds2] at this
          exact Except.ok.inj this
        simp [h1, h2]

theorem diff_iff_node_aux : ∀ (N : Nat) (t : MetaTreeNode π) (anc : List String)
    (ln rn : String) (a b : PyVal), sizeOf t ≤ N → treeNodup t = true →
    pyWF a = true → pyWF b = true → tcNode anc t a = [] → tcNode anc t b = [] →
    (∃ ds, diffNode t a b ln rn = .ok ds) ∧
    (diffNode t a b ln rn = .ok [] ↔ pyEq a b = true) := by
  intro N
  induction N with
  | zero =>
    intro t anc ln rn a b ht
    exfalso
    cases t <;> simp at ht
  | succ N ih =>
    intro t anc ln rn a b ht hnd hwa hwb hta htb
    match t with
    | .scalar n hs ap ty op =>
      by_cases hq : pyEq a b = true <;> simp [diffNode, hq]
    | .fixedDict n hs ap op cs =>
      obtain ⟨les, rfl⟩ : ∃ les, a = .dict les := by
        cases a with
        | dict les => exact ⟨les, rfl⟩
        | int n1 => simp [tcNode] at hta
        | bool b1 => simp [tcNode] at hta
        | str s1 => simp [tcNode] at hta
        | list xs1 => simp [tcNode] at hta
      obtain ⟨res, rfl⟩ : ∃ res, b = .dict res := by
        cases b with
        | dict res => exact ⟨res, rfl⟩
        | int n1 => simp [tcNode] at htb
        | bool b1 => simp [tcNode] at htb
        | str s1 => simp [tcNode] at htb
        | list xs1 => simp [tcNode] at htb
      rw [tcNode, List.append_eq_nil] at hta htb
      rw [tcEntries_empty_iff] at hta htb
      have hMa : ∀ c ∈ cs, ∃ e ∈ les, e.1 = c.name := by
        intro c hc
        have := hta.2
        rw [List.map_eq_nil_iff, List.filter_eq_nil_iff] at this
        have h2 := this c hc
        simp only [Bool.not_eq_true', Bool.not_eq_false] at h2
        rcases List.any_eq_true.mp h2 with ⟨e, he, hee⟩
        exact ⟨e, he, by simpa using hee⟩
      have hMb : ∀ c ∈ cs, ∃ e ∈ res, e.1 = c.name := by
        intro c hc
        have := htb.2
        rw [List.map_eq_nil_iff, List.filter_eq_nil_iff] at this
        have h2 := this c hc
        simp only [Bool.not_eq_true', Bool.not_eq_false] at h2
        rcases List.any_eq_true.mp h2 with ⟨e, he, hee⟩
        exact ⟨e, he, by simpa using hee⟩
      rw [treeNodup] at hnd
      rw [pyWF] at hwa hwb
      simp only [Bool.and_eq_true] at hnd hwa hwb
      have hpack : ∀ c ∈ cs, ∃ lv rv,
          lookupStr c.name les = some lv ∧ lookupStr c.name res = some rv ∧
          (∃ ds, diffNode c lv rv ln rn = .ok ds) ∧
          (diffNode c lv rv ln rn = .ok [] ↔ pyEq lv rv = true) := by
        intro c hc
        rcases hMa c hc with ⟨⟨ke, lv⟩, hel, hke⟩
        rcases hMb c hc with ⟨⟨ke2, rv⟩, her, hke2⟩
        subst hke
        subst hke2
        have hll : lookupStr c.name les = some lv := lookupStr_of_mem_nodup hwa.1 hel
        have hlr : lookupStr c.name res = some rv := lookupStr_of_mem_nodup hwb.1 her
        refine ⟨lv, rv, hll, hlr, ?_⟩
        rcases hta.1 (c.name, lv) hel with ⟨c2, hf, htc⟩
        have hfc : cs.find? (fun c2 => c2.name == c.name) = some c :=
          find?_self_of_nodup hnd.1 hc
        rw [hfc] at hf
        cases hf
        rcases htb.1 (c.name, rv) her with ⟨c3, hf3, htc3⟩
        rw [hfc] at hf3
        cases hf3
        refine ih c (anc ++ [n]) ln rn lv rv ?_ (treeNodupList_of_mem hnd.2 hc)
          (pyWFDict_of_mem hwa.2 hel) (pyWFDict_of_mem hwb.2 her) htc htc3
        have hm := List.sizeOf_lt_of_mem hc
        rw [MetaTreeNode.fixedDict.sizeOf_spec] at ht
        omega
      rcases diff_children_char cs ln rn les res hpack with ⟨hex, hiffc⟩
      have hdn : diffNode (.fixedDict n hs ap op cs) (.dict les) (.dict res) ln rn =
          diffChildren cs (.dict les) (.dict res) ln rn := by rw [diffNode]
      rw [hdn]
      refine ⟨hex, ?_⟩
      rw [hiffc, pyEq]
      simp only [Bool.and_eq_true]
      constructor
      · intro hall
        constructor
        · rw [pyEqDictSub_iff]
          rintro ⟨pk, pv⟩ hp
          rcases hta.1 (pk, pv) hp with ⟨c, hf, _⟩
          rcases find?_name_eq hf with ⟨hcn, hcm⟩
          rcases hMb c hcm with ⟨⟨ke2, rv⟩, her, hke2⟩
          subst hke2
          have hlr : lookupStr c.name res = some rv := lookupStr_of_mem_nodup hwb.1 her
          have hll : lookupStr c.name les = some pv := by
            rw [hcn]
            exact lookupStr_of_mem_nodup hwa.1 hp
          refine ⟨rv, by rw [← hcn]; exact hlr, ?_⟩
          exact hall c hcm pv rv hll hlr
        · rw [List.all_eq_true]
          intro e he
          rcases htb.1 e he with ⟨c, hf, _⟩
          rcases find?_name_eq hf with ⟨hcn, hcm⟩
          rcases hMa c hcm with ⟨e2, hel, hke⟩
          rw [List.any_eq_true]
          refine ⟨e2, hel, ?_⟩
          simp [hke, hcn]
      · rintro ⟨hsub, _⟩ c hc lv rv hl hr
        have hp := lookupStr_mem hl
        rcases (pyEqDictSub_iff les res).mp hsub (c.name, lv) hp with ⟨w, hw, hpe⟩
        rw [hr] at hw
        cases hw
        exact hpe

/-- C7: for two raw values that both conform to the same metamodel (and with
the Python-side invariants that dict keys and declared child names are
duplicate-free), the diff of their typechecked models is the empty list
exactly when the values are equal under Python `==`; in particular the diff of
a conforming value against itself is empty. -/
theorem diff_empty_iff_python_eq (m : MetaModel π) (a b : PyVal) (ln rn : String)
    (hnd : treeNodup m.root = true) (hwa : pyWF a = true) (hwb : pyWF b = true)
    (hta : m.TypeCheck a = []) (htb : m.TypeCheck b = []) :
    (DiffTypecheckedModels ⟨a, m⟩ ⟨b, m⟩ ln rn = .ok [] ↔ pyEq a b = true) ∧
    DiffTypecheckedModels ⟨a, m⟩ ⟨a, m⟩ ln rn = .ok [] := by
  have h1 := diff_iff_node_aux (sizeOf m.root) m.root [] ln rn a b (Nat.le_refl _)
    hnd hwa hwb hta htb
  have h2 := diff_iff_node_aux (sizeOf m.root) m.root [] ln rn a a (Nat.le_refl _)
    hnd hwa hwa hta hta
  exact ⟨h1.2, h2.2.mpr (pyEq_refl a hwa)⟩

/-- A second conforming raw value for the test schema, differing from
`goodRawData` only in the age field. -/
def goodRawData2 : PyVal :=
  .dict [("bar", .int 5),
         ("baz", .dict [("name", .str "john"), ("age", .int 38)]),
         ("teams", .dict [("soccer", .str "man utd"), ("nfl", .str "tigers")])]

/-- C7 witness: both concrete values conform to the concrete test schema, and
the equivalence (plus reflexivity) holds at them. -/
theorem diff_empty_iff_python_eq_witness :
    (treeNodup testMetamodel.root = true ∧ pyWF goodRawData = true ∧
     pyWF goodRawData2 = true ∧ testMetamodel.TypeCheck goodRawData = [] ∧
     testMetamodel.TypeCheck goodRawData2 = []) ∧
    ((DiffTypecheckedModels ⟨goodRawData, testMetamodel⟩ ⟨goodRawData2, testMetamodel⟩
        "file" "system" = .ok [] ↔ pyEq goodRawData goodRawData2 = true) ∧
     DiffTypecheckedModels ⟨goodRawData, testMetamodel⟩ ⟨goodRawData, testMetamodel⟩
        "file" "system" = .ok []) :=
  ⟨⟨by decide, by decide, by decide, by decide, by decide⟩,
   diff_empty_iff_python_eq testMetamodel goodRawData goodRawData2 "file" "system"
     (by decide) (by decide) (by decide) (by decide) (by decide)⟩
